import Mathlib

/-
A shallow embedding of the custom-emoji asset pipeline from
src/Telegram/SourceFiles/data/stickers/data_custom_emoji.cpp:
the identifier codec (SerializeCustomEmojiId / ParseCustomEmojiData),
the CustomEmojiLoader state machine, and the CustomEmojiManager
(instance registry, batched resolution, repaint coalescing).

QString values are modelled as lists of UTF-16 code units (List Nat),
which is the representation QString actually uses.  Machine integers
(uint64 document and account ids) are modelled as Nat with explicit
2 ^ 64 bounds where the claims need them.
-/

set_option autoImplicit false

namespace Data

/-- A QString, as its sequence of UTF-16 code units. -/
abbrev QStr := List Nat

/-- The code unit of the colon separator. -/
def colonCU : Nat := 58

/-- Whether a code unit is an ASCII decimal digit (as used by
QString-to-number conversion in base 10). -/
def isDigitCU (u : Nat) : Bool := decide (48 ≤ u ∧ u ≤ 57)

/-- Numeric value of a digit sequence, most significant first. -/
def digitsVal (s : QStr) : Nat :=
  s.foldl (fun acc u => acc * 10 + (u - 48)) 0

/-- Fuel-driven decimal digit writer; with fuel above the value the result
is the decimal representation, most significant first. -/
def natDigitsAux : Nat → Nat → QStr
  | 0, _ => []
  | fuel + 1, n =>
    if n < 10 then [48 + n]
    else natDigitsAux fuel (n / 10) ++ [48 + n % 10]

/-- Model of QString::number on an unsigned 64-bit value: the decimal
code-unit sequence of the number. -/
def numberCU (n : Nat) : QStr := natDigitsAux (n + 1) n

/-- Model of QStringView::split on the colon separator with empty parts
kept: splitting the empty string yields one empty field, matching Qt. -/
def qsplitColon : QStr → List QStr
  | [] => [[]]
  | c :: rest =>
    if c = colonCU then [] :: qsplitColon rest
    else
      match qsplitColon rest with
      | f :: fs => (c :: f) :: fs
      | [] => [[c]]

/-- Model of QString::toULongLong in base 10: the value of the digit
string when it is non-empty, all digits, and within the unsigned 64-bit
range; otherwise the conversion fails and yields 0.  Sign characters and
surrounding whitespace are treated as failures here; no claim exercises
them. -/
def toULongLong (s : QStr) : Nat :=
  if s ≠ [] ∧ s.all isDigitCU = true ∧ digitsVal s < 2 ^ 64 then digitsVal s
  else 0

/-- The identifier pair: owning account id and document (asset) id,
both unsigned 64-bit in the source. -/
structure CustomEmojiId where
  selfId : Nat
  id : Nat
deriving DecidableEq

/-- SerializeCustomEmojiId: QString::number(id.id) + colon +
QString::number(id.selfId). -/
def SerializeCustomEmojiId (i : CustomEmojiId) : QStr :=
  numberCU i.id ++ [colonCU] ++ numberCU i.selfId

/-- ParseCustomEmojiData: split on the colon; unless there are exactly
two components return the empty identifier; otherwise selfId is the
second component and id the first, each via toULongLong. -/
def ParseCustomEmojiData (s : QStr) : CustomEmojiId :=
  match qsplitColon s with
  | [c0, c1] => { selfId := toULongLong c1, id := toULongLong c0 }
  | _ => { selfId := 0, id := 0 }

/-- The relevant slice of DocumentData: its id, whether sticker data is
present (decides the loader initial state), its big-file base cache key
(absent models a zero key), and whether the media view reports loaded
data immediately after checkStickerLarge. -/
structure Document where
  id : Nat
  hasSticker : Bool
  baseCacheKey : Option (Nat × Nat)
  mediaLoaded : Bool
deriving DecidableEq

/-- CustomEmojiManager::SizeTag. -/
inductive SizeTag where
  | Normal
  | Large
deriving DecidableEq

/-- Modelled from the spec: ChatHelpers::LottieCacheKeyShift is external
to the sources; the spec describes the cache key as the base storage key
plus a fixed shift constant combined with a size-tag-derived sub-index.
Only its existence matters to the claims, not its value. -/
def lottieCacheKeyShift : SizeTag → Nat
  | SizeTag.Normal => 0x0F * 2
  | SizeTag.Large => 0x0F * 2 + 1

/-- CustomEmojiLoader::cacheKey: empty when the document has no big-file
base cache key, otherwise the base key with the shifted low part. -/
def cacheKey (tag : SizeTag) (doc : Document) : Option (Nat × Nat) :=
  match doc.baseCacheKey with
  | none => none
  | some (h, l) => some (h, l + lottieCacheKeyShift tag)

/-- An in-flight Process: it carries the (possibly moved-from, hence
optional) completion callback, identified by a number. -/
structure Process where
  loaded : Option Nat
deriving DecidableEq

/-- The three mutually exclusive loader states of the source variant
std::variant with Resolve, Lookup and Load alternatives. -/
inductive LoaderState where
  | Resolve (requested : Option Nat) (entityData : QStr)
  | Lookup (document : Document) (process : Option Process)
  | Load (document : Document) (process : Option Process)
deriving DecidableEq

/-- CustomEmojiLoader::resolving: whether the state holds the Resolve
alternative. -/
def resolving : LoaderState → Bool
  | LoaderState.Resolve _ _ => true
  | _ => false

/-- Whether a state holds an in-flight process. -/
def hasProcess : LoaderState → Bool
  | LoaderState.Lookup _ p => p.isSome
  | LoaderState.Load _ p => p.isSome
  | _ => false

/-- The observable fetch operations a loader can start. -/
inductive Fetch where
  | cacheGet (key : Nat × Nat)
  | decodeStart
deriving DecidableEq

/-- The Load-state branch of CustomEmojiLoader::load with no process in
flight: a process with a media view is created (the decode fetch); if
the media is already loaded, check() runs at once and, with data
available, delivers the result and takes the process. -/
def loadInLoad (doc : Document) (loaded : Option Nat) :
    LoaderState × List Fetch × List Nat :=
  if doc.mediaLoaded then
    (LoaderState.Load doc none, [Fetch.decodeStart], loaded.toList)
  else
    (LoaderState.Load doc (some { loaded := loaded }),
      [Fetch.decodeStart], [])

/-- CustomEmojiLoader::startCacheLookup: without a cache key fall through
to loadNoCache (state becomes Load and load re-runs there); with one,
create the process and issue the asynchronous cache get. -/
def startCacheLookup (tag : SizeTag) (doc : Document) (loaded : Option Nat) :
    LoaderState × List Fetch × List Nat :=
  match cacheKey tag doc with
  | none => loadInLoad doc loaded
  | some key =>
    (LoaderState.Lookup doc (some { loaded := loaded }),
      [Fetch.cacheGet key], [])

/-- CustomEmojiLoader::load: in Resolve the callback is stored in
requested (replacing any previous one); in Lookup or Load with a process
in flight the callback replaces the one held by the process; otherwise
the fetch is started.  Returns the new state, the fetches started, and
any synchronously delivered callbacks. -/
def loadStep (tag : SizeTag) (loaded : Option Nat) :
    LoaderState → LoaderState × List Fetch × List Nat
  | LoaderState.Resolve _ e => (LoaderState.Resolve loaded e, [], [])
  | LoaderState.Lookup doc none => startCacheLookup tag doc loaded
  | LoaderState.Lookup doc (some _) =>
    (LoaderState.Lookup doc (some { loaded := loaded }), [], [])
  | LoaderState.Load doc none => loadInLoad doc loaded
  | LoaderState.Load doc (some _) =>
    (LoaderState.Load doc (some { loaded := loaded }), [], [])

/-- CustomEmojiLoader::lookupDone: on a cache miss fall through to
loadNoCache with the process callback; on a hit deliver the cached
result to the process callback (which is moved from).  Other states are
unreachable for the guarded cache-get completion. -/
def lookupDone (_tag : SizeTag) (result : Option Nat) :
    LoaderState → LoaderState × List Fetch × List Nat
  | LoaderState.Lookup doc (some p) =>
    match result with
    | none => loadInLoad doc p.loaded
    | some _ =>
      (LoaderState.Lookup doc (some { loaded := none }), [], p.loaded.toList)
  | s => (s, [], [])

/-- CustomEmojiLoader::check at a completion notification: in the Load
state with a process, once data is available the process is taken and
its callback receives the freshly decoded result; without data it keeps
waiting. -/
def check (dataReady : Bool) : LoaderState → LoaderState × List Nat
  | LoaderState.Load doc (some p) =>
    if dataReady then (LoaderState.Load doc none, p.loaded.toList)
    else (LoaderState.Load doc (some p), [])
  | s => (s, [])

/-- CustomEmojiLoader::cancel: in Lookup the process is discarded; in
Load, if a process was in flight it is discarded and the document fetch
is cancelled (the returned flag); otherwise nothing happens. -/
def cancel : LoaderState → LoaderState × Bool
  | LoaderState.Lookup doc _ => (LoaderState.Lookup doc none, false)
  | LoaderState.Load doc p => (LoaderState.Load doc none, p.isSome)
  | s => (s, false)

/-- CustomEmojiLoader::resolved: valid only in the Resolve state (none
models the failed Expects); the requested callback is taken, the state
becomes Lookup over the document, and a taken callback is re-issued via
load against the new state. -/
def resolvedStep (tag : SizeTag) (doc : Document) :
    LoaderState → Option (LoaderState × List Fetch × List Nat)
  | LoaderState.Resolve requested _ =>
    some (match requested with
      | none => (LoaderState.Lookup doc none, [], [])
      | some cb => loadStep tag (some cb) (LoaderState.Lookup doc none))
  | _ => none

/-- Iterated load calls, collecting started fetches and synchronous
deliveries in order. -/
def loadMany (tag : SizeTag) : List Nat → LoaderState →
    LoaderState × List Fetch × List Nat
  | [], s => (s, [], [])
  | cb :: rest, s =>
    let r := loadStep tag (some cb) s
    let r2 := loadMany tag rest r.1
    (r2.1, r.2.1 ++ r2.2.1, r.2.2 ++ r2.2.2)

/-- The last element of the list, or the default when it is empty. -/
def lastOpt (d : Option Nat) : List Nat → Option Nat
  | [] => d
  | c :: rest => lastOpt (some c) rest

/-- The document store of the owning Session: owner->document(id) by
document id. -/
abbrev Session := Nat → Document

/-- The relevant slice of CustomEmojiManager state: the instance
registry from document id to the tag identifying the shared Instance, a
counter producing fresh tags, the ids with weakly registered waiting
loaders, the pending-request ids and the in-flight request flag. -/
structure ManagerState where
  owner : Session
  instances : List (Nat × Nat)
  nextInstanceTag : Nat
  loaders : List Nat
  pendingForRequest : List Nat
  requestId : Bool

/-- Lookup in the instance registry. -/
def findInstance (id : Nat) : List (Nat × Nat) → Option Nat
  | [] => none
  | (k, v) :: rest => if k = id then some v else findInstance id rest

/-- Modelled from the spec: the container behind _pendingForRequest is
declared in a header that is not among the sources; the spec describes
it as a pending set of ids served most-recently-added first, so it is a
duplicate-free list with the most recently added id at the head. -/
def emplacePending (id : Nat) (pending : List Nat) : List Nat :=
  if id ∈ pending then pending else id :: pending

/-- CustomEmojiLoader::InitialState: documents that already carry
sticker data start in Lookup; otherwise the loader starts in Resolve
holding the serialized token. -/
def InitialState (owner : Session) (id : CustomEmojiId) : LoaderState :=
  let document := owner id.id
  if document.hasSticker then LoaderState.Lookup document none
  else LoaderState.Resolve none (SerializeCustomEmojiId id)

/-- CustomEmojiManager::create: parse the token and return null when the
parsed document id is zero; return the existing Instance for that id
when registered; otherwise build a loader, register it as a pending
waiter when it starts resolving, and register a fresh Instance under the
document id.  The returned handle is the tag of the Instance it is bound
to. -/
def create (s : QStr) (st : ManagerState) : Option Nat × ManagerState :=
  let parsed := ParseCustomEmojiData s
  if parsed.id = 0 then (none, st)
  else
    match findInstance parsed.id st.instances with
    | some tag => (some tag, st)
    | none =>
      let loader := InitialState st.owner parsed
      let st1 :=
        if resolving loader then
          { st with
            loaders := st.loaders ++ [parsed.id]
            pendingForRequest := emplacePending parsed.id st.pendingForRequest }
        else st
      (some st1.nextInstanceTag,
        { st1 with
          instances := (parsed.id, st1.nextInstanceTag) :: st1.instances
          nextInstanceTag := st1.nextInstanceTag + 1 })

/-- kMaxPerRequest. -/
def kMaxPerRequest : Nat := 100

/-- The drain loop of CustomEmojiManager::request: while the pending set
is non-empty and fewer than kMaxPerRequest ids are gathered, move the
most recently added pending id (the head here, the source iterates from
the end of its insertion-ordered set) into the batch. -/
def drainLoop (ids : List Nat) : List Nat → List Nat × List Nat
  | [] => (ids, [])
  | x :: rest =>
    if ids.length < kMaxPerRequest then drainLoop (ids ++ [x]) rest
    else (ids, x :: rest)

/-- CustomEmojiManager::request: drain a batch; if it is empty no call
is issued and the state is unchanged, otherwise the batch goes out and a
request is recorded as in flight. -/
def request (st : ManagerState) : List Nat × ManagerState :=
  let r := drainLoop [] st.pendingForRequest
  if r.1 = [] then ([], st)
  else (r.1, { st with pendingForRequest := r.2, requestId := true })

/-- The chain of batches produced by request and requestFinished: both
the done and the fail handler call requestFinished, which clears the
in-flight flag and immediately re-issues request while pending ids
remain.  Fuel bounds the chain; the pending length is always enough. -/
def runBatches : Nat → List Nat → List (List Nat)
  | 0, _ => []
  | fuel + 1, pending =>
    let r := drainLoop [] pending
    if r.1 = [] then [] else r.1 :: runBatches fuel r.2

/-- A session with no documents carrying sticker data, for concrete
evaluations. -/
def emptySession : Session := fun n =>
  { id := n, hasSticker := false, baseCacheKey := none, mediaLoaded := false }

/-- A freshly constructed manager over the empty session. -/
def initialManager : ManagerState :=
  { owner := emptySession
    instances := []
    nextInstanceTag := 0
    loaders := []
    pendingForRequest := []
    requestId := false }

/-- A repaint bunch: its due timestamp and the weakly referenced render
target instances, by number. -/
structure Bunch where
  whenT : Nat
  instances : List Nat
deriving DecidableEq

/-- The repaint scheduling state: bunches keyed by animation duration,
and the timestamp the single coalesced timer is programmed for (zero
when none). -/
structure RepaintState where
  repaints : List (Nat × Bunch)
  repaintNext : Nat
deriving DecidableEq

/-- The fold of CustomEmojiManager::scheduleRepaintTimer computing the
minimum due timestamp across bunches: starting from zero, any bunch due
time replaces a zero or larger accumulator. -/
def minWhen (repaints : List (Nat × Bunch)) : Nat :=
  repaints.foldl
    (fun next e => if next = 0 ∨ next > e.2.whenT then e.2.whenT else next) 0

/-- Which of the two mutually recursive repaint routines runs next. -/
inductive RepaintPhase where
  | schedule
  | invoke
deriving DecidableEq

/-- The mutual recursion of scheduleRepaintTimer and invokeRepaints,
driven by fuel (the two source routines call each other; two units of
fuel complete any invoke, three any schedule).  schedule recomputes the
minimum due time and reprograms the timer when it is sooner than the
scheduled one, firing immediately when it is already due; invoke clears
the timer, flushes every bunch whose due time has elapsed, notifies the
still-alive targets of flushed bunches, and reschedules. -/
def repaintStep (alive : Nat → Bool) :
    Nat → RepaintPhase → Nat → RepaintState → RepaintState × List Nat
  | 0, _, _, s => (s, [])
  | fuel + 1, RepaintPhase.schedule, now, s =>
    let next := minWhen s.repaints
    if next ≠ 0 ∧ (s.repaintNext = 0 ∨ s.repaintNext > next) then
      if now ≥ next then
        repaintStep alive fuel RepaintPhase.invoke now { s with repaintNext := 0 }
      else ({ s with repaintNext := next }, [])
    else (s, [])
  | fuel + 1, RepaintPhase.invoke, now, s =>
    let kept := s.repaints.filter (fun e => decide (now < e.2.whenT))
    let due := s.repaints.filter (fun e => decide (e.2.whenT ≤ now))
    let notified := due.flatMap (fun e => e.2.instances.filter alive)
    let r := repaintStep alive fuel RepaintPhase.schedule now
      { repaints := kept, repaintNext := 0 }
    (r.1, notified ++ r.2)

/-- CustomEmojiManager::invokeRepaints at a given current time. -/
def invokeRepaints (alive : Nat → Bool) (now : Nat) (s : RepaintState) :
    RepaintState × List Nat :=
  repaintStep alive 2 RepaintPhase.invoke now s

/-- CustomEmojiManager::scheduleRepaintTimer at a given current time. -/
def scheduleRepaintTimer (alive : Nat → Bool) (now : Nat) (s : RepaintState) :
    RepaintState × List Nat :=
  repaintStep alive 3 RepaintPhase.schedule now s

/-- Association update for CustomEmojiManager::repaintLater: the bunch
for the duration has its due time extended to the maximum of current and
requested and the instance appended. -/
def updateBunch (duration inst whenT : Nat) :
    List (Nat × Bunch) → List (Nat × Bunch)
  | [] => [(duration, { whenT := whenT, instances := [inst] })]
  | (d, b) :: rest =>
    if d = duration then
      (d, { whenT := if b.whenT < whenT then whenT else b.whenT
            instances := b.instances ++ [inst] }) :: rest
    else (d, b) :: updateBunch duration inst whenT rest

/-- CustomEmojiManager::repaintLater followed by its scheduleRepaintTimer
call. -/
def repaintLater (alive : Nat → Bool) (now : Nat)
    (inst duration whenT : Nat) (s : RepaintState) :
    RepaintState × List Nat :=
  scheduleRepaintTimer alive now
    { s with repaints := updateBunch duration inst whenT s.repaints }

lemma digitsVal_append_one (l : QStr) (u : Nat) :
    digitsVal (l ++ [u]) = digitsVal l * 10 + (u - 48) := by
  simp [digitsVal, List.foldl_append]

lemma natDigitsAux_spec (fuel : Nat) : ∀ n, n < fuel →
    natDigitsAux fuel n ≠ [] ∧ (natDigitsAux fuel n).all isDigitCU = true ∧
      digitsVal (natDigitsAux fuel n) = n := by
  induction fuel with
  | zero => intro n h; omega
  | succ fuel ih =>
    intro n h
    by_cases h10 : n < 10
    · refine ⟨by simp [natDigitsAux, h10], ?_, ?_⟩
      · simp [natDigitsAux, h10, isDigitCU]
        omega
      · simp [natDigitsAux, h10, digitsVal]
    · have hdiv : n / 10 < fuel := by omega
      obtain ⟨h1, h2, h3⟩ := ih (n / 10) hdiv
      rw [natDigitsAux]
      simp only [if_neg h10]
      refine ⟨by simp, ?_, ?_⟩
      · rw [List.all_append]
        simp only [h2, Bool.true_and, List.all_cons, List.all_nil,
          Bool.and_true, isDigitCU]
        rw [decide_eq_true_eq]
        omega
      · rw [digitsVal_append_one, h3]
        omega

lemma numberCU_ne_nil (n : Nat) : numberCU n ≠ [] :=
  (natDigitsAux_spec (n + 1) n (Nat.lt_succ_self n)).1

lemma numberCU_all_digits (n : Nat) : (numberCU n).all isDigitCU = true :=
  (natDigitsAux_spec (n + 1) n (Nat.lt_succ_self n)).2.1

lemma digitsVal_numberCU (n : Nat) : digitsVal (numberCU n) = n :=
  (natDigitsAux_spec (n + 1) n (Nat.lt_succ_self n)).2.2

lemma toULongLong_numberCU (n : Nat) (h : n < 2 ^ 64) :
    toULongLong (numberCU n) = n := by
  rw [toULongLong, if_pos, digitsVal_numberCU]
  exact ⟨numberCU_ne_nil n, numberCU_all_digits n,
    by rw [digitsVal_numberCU]; exact h⟩

lemma numberCU_no_colon (n : Nat) : ∀ u ∈ numberCU n, u ≠ colonCU := by
  intro u hu
  have := (List.all_eq_true.mp (numberCU_all_digits n)) u hu
  simp only [isDigitCU, decide_eq_true_eq] at this
  simp only [colonCU]
  omega

lemma qsplitColon_no_colon (s : QStr) (h : ∀ u ∈ s, u ≠ colonCU) :
    qsplitColon s = [s] := by
  induction s with
  | nil => rfl
  | cons c rest ih =>
    have hc : c ≠ colonCU := h c (List.mem_cons_self c rest)
    rw [qsplitColon, if_neg hc, ih (fun u hu => h u (List.mem_cons_of_mem c hu))]

lemma qsplitColon_append_colon (s t : QStr) (h : ∀ u ∈ s, u ≠ colonCU) :
    qsplitColon (s ++ colonCU :: t) = s :: qsplitColon t := by
  induction s with
  | nil => simp [qsplitColon]
  | cons c rest ih =>
    have hc : c ≠ colonCU := h c (List.mem_cons_self c rest)
    rw [List.cons_append, qsplitColon, if_neg hc,
      ih (fun u hu => h u (List.mem_cons_of_mem c hu))]

/-- C3: for every valid identifier (both components unsigned 64-bit),
parsing the serialized token returns the identifier unchanged. -/
theorem c3_parse_serialize_roundtrip (x : CustomEmojiId)
    (h1 : x.id < 2 ^ 64) (h2 : x.selfId < 2 ^ 64) :
    ParseCustomEmojiData (SerializeCustomEmojiId x) = x := by
  rw [ParseCustomEmojiData, SerializeCustomEmojiId]
  rw [List.append_assoc, List.singleton_append,
    qsplitColon_append_colon _ _ (numberCU_no_colon x.id),
    qsplitColon_no_colon _ (numberCU_no_colon x.selfId)]
  simp only [toULongLong_numberCU x.id h1, toULongLong_numberCU x.selfId h2]

/-- Witness for C3 at the identifier with document id 5 and account id
123, serialized and parsed concretely. -/
theorem c3_parse_serialize_roundtrip_witness :
    (5 : Nat) < 2 ^ 64 ∧ (123 : Nat) < 2 ^ 64 ∧
      ParseCustomEmojiData
        (SerializeCustomEmojiId { selfId := 123, id := 5 })
        = { selfId := 123, id := 5 } :=
  ⟨by decide, by decide,
    c3_parse_serialize_roundtrip { selfId := 123, id := 5 }
      (by decide) (by decide)⟩

lemma create_none_iff (s : QStr) (st : ManagerState) :
    (create s st).1 = none ↔ (ParseCustomEmojiData s).id = 0 := by
  rw [create]
  by_cases h : (ParseCustomEmojiData s).id = 0
  · simp [h]
  · cases hf : findInstance (ParseCustomEmojiData s).id st.instances with
    | none => simp [h, hf]
    | some tag => simp [h, hf]

/-- C4 counterexample: the token with code units of the text
five-colon-a-b-c has exactly two fields, the second non-numeric, yet
parse yields the non-empty identifier with document id 5 and create
returns a non-null handle. -/
theorem c4_counterexample :
    ParseCustomEmojiData [53, 58, 97, 98, 99] ≠ { selfId := 0, id := 0 } ∧
      (create [53, 58, 97, 98, 99] initialManager).1 ≠ none := by
  exact ⟨by decide, by decide⟩

/-- C4 amended: a token that does not split into exactly two
colon-separated fields parses to the empty identifier and create returns
null on it; on a two-field token each field converts with failures
becoming zero, and create returns null exactly when the first field
converts to zero. -/
theorem c4_malformed_tokens (st : ManagerState) (s : QStr) :
    ((qsplitColon s).length ≠ 2 →
      ParseCustomEmojiData s = { selfId := 0, id := 0 } ∧
        (create s st).1 = none)
    ∧ (∀ c0 c1, qsplitColon s = [c0, c1] →
      ParseCustomEmojiData s = { selfId := toULongLong c1, id := toULongLong c0 }
        ∧ ((create s st).1 = none ↔ toULongLong c0 = 0)) := by
  constructor
  · intro hlen
    have hparse : ParseCustomEmojiData s = { selfId := 0, id := 0 } := by
      rw [ParseCustomEmojiData]
      match hsp : qsplitColon s with
      | [] => rfl
      | [_] => rfl
      | [_, _] => rw [hsp] at hlen; simp at hlen
      | _ :: _ :: _ :: _ => rfl
    refine ⟨hparse, ?_⟩
    rw [create_none_iff, hparse]
  · intro c0 c1 hsp
    have hparse : ParseCustomEmojiData s
        = { selfId := toULongLong c1, id := toULongLong c0 } := by
      rw [ParseCustomEmojiData, hsp]
    refine ⟨hparse, ?_⟩
    rw [create_none_iff, hparse]

/-- Witness for C4 amended: the one-field token of the single digit five
parses to the empty identifier and create rejects it. -/
theorem c4_malformed_tokens_witness :
    ParseCustomEmojiData [53] = { selfId := 0, id := 0 } ∧
      (create [53] initialManager).1 = none :=
  (c4_malformed_tokens initialManager [53]).1 (by decide)

/-- C10: create returns a null handle exactly when the parsed document
id field is zero; concretely the well-formed token zero-colon-123 yields
null while five-colon-a-b-c, whose owner field is non-numeric, yields a
non-null handle. -/
theorem c10_create_null_iff_zero_id (st : ManagerState) (s : QStr) :
    ((create s st).1 = none ↔ (ParseCustomEmojiData s).id = 0)
    ∧ (create [48, 58, 49, 50, 51] st).1 = none
    ∧ (create [53, 58, 97, 98, 99] st).1 ≠ none := by
  refine ⟨create_none_iff s st, ?_, ?_⟩
  · rw [create_none_iff]
    decide
  · rw [Ne, create_none_iff]
    decide

lemma lastOpt_cons_eq_getLast (rest : List Nat) : ∀ c : Nat,
    lastOpt (some c) rest
      = some ((c :: rest).getLast (List.cons_ne_nil c rest)) := by
  induction rest with
  | nil => intro c; rfl
  | cons d r ih =>
    intro c
    rw [lastOpt, ih d, List.getLast_cons (List.cons_ne_nil d r)]

lemma loadMany_lookup_some (tag : SizeTag) (doc : Document) :
    ∀ (rest : List Nat) (p : Process),
      loadMany tag rest (LoaderState.Lookup doc (some p))
        = (LoaderState.Lookup doc (some { loaded := lastOpt p.loaded rest }),
            [], []) := by
  intro rest
  induction rest with
  | nil => intro p; rfl
  | cons c r ih =>
    intro p
    rw [loadMany, loadStep]
    simp only [ih { loaded := some c }]
    rfl

lemma loadMany_load_some (tag : SizeTag) (doc : Document) :
    ∀ (rest : List Nat) (p : Process),
      loadMany tag rest (LoaderState.Load doc (some p))
        = (LoaderState.Load doc (some { loaded := lastOpt p.loaded rest }),
            [], []) := by
  intro rest
  induction rest with
  | nil => intro p; rfl
  | cons c r ih =>
    intro p
    rw [loadMany, loadStep]
    simp only [ih { loaded := some c }]
    rfl

/-- C1 amended: several load calls on one Loader before any completion
start exactly one underlying fetch and deliver nothing synchronously,
and the completion (the cache hit in the Lookup state, the data-ready
check in the Load state) invokes only the most recently registered
callback: each load call replaces the callback held by the in-flight
process. -/
theorem c1_single_fetch_last_callback_only (tag : SizeTag) (doc : Document)
    (cbs : List Nat) (hcb : cbs ≠ []) (hml : doc.mediaLoaded = false) :
    (loadMany tag cbs (LoaderState.Lookup doc none)).2.1.length = 1
    ∧ (loadMany tag cbs (LoaderState.Lookup doc none)).2.2 = []
    ∧ (∀ k, cacheKey tag doc = some k → ∀ c,
        (lookupDone tag (some c)
          (loadMany tag cbs (LoaderState.Lookup doc none)).1).2.2
          = [cbs.getLast hcb])
    ∧ (cacheKey tag doc = none →
        (check true (loadMany tag cbs (LoaderState.Lookup doc none)).1).2
          = [cbs.getLast hcb]) := by
  match cbs, hcb with
  | c :: rest, _ =>
    rw [loadMany, loadStep, startCacheLookup]
    cases hk : cacheKey tag doc with
    | some k =>
      simp only [loadMany_lookup_some tag doc rest { loaded := some c }]
      refine ⟨rfl, rfl, ?_, ?_⟩
      · intro k2 _ c2
        rw [lookupDone]
        simp [lastOpt_cons_eq_getLast rest c]
      · intro hnone
        exact absurd hnone (by simp)
    | none =>
      rw [loadInLoad, if_neg (by rw [hml]; exact Bool.false_ne_true)]
      simp only [loadMany_load_some tag doc rest { loaded := some c }]
      refine ⟨rfl, rfl, ?_, ?_⟩
      · intro k2 hk2
        exact absurd hk2 (by simp)
      · intro _
        rw [check]
        simp [lastOpt_cons_eq_getLast rest c]

/-- Witness for C1 amended: one load on a loader over a document with a
cache key starts one fetch, and the cache-hit completion delivers to
that callback. -/
theorem c1_single_fetch_last_callback_only_witness :
    (loadMany SizeTag.Normal [7]
      (LoaderState.Lookup
        { id := 7, hasSticker := true, baseCacheKey := some (1, 2),
          mediaLoaded := false } none)).2.1.length = 1
    ∧ (lookupDone SizeTag.Normal (some 0)
        (loadMany SizeTag.Normal [7]
          (LoaderState.Lookup
            { id := 7, hasSticker := true, baseCacheKey := some (1, 2),
              mediaLoaded := false } none)).1).2.2 = [7] := by
  have h := c1_single_fetch_last_callback_only SizeTag.Normal
    { id := 7, hasSticker := true, baseCacheKey := some (1, 2),
      mediaLoaded := false } [7] (by decide) (by decide)
  exact ⟨h.1, by simpa using h.2.2.1 (1, 32) (by decide) 0⟩

/-- C1 counterexample: two load calls registered before completion start
exactly one fetch, but the completion delivers the result only to the
second callback; the first registered callback never receives it, so not
all registered callbacks receive the result. -/
theorem c1_counterexample :
    (loadMany SizeTag.Normal [1, 2]
      (LoaderState.Lookup
        { id := 7, hasSticker := true, baseCacheKey := some (1, 2),
          mediaLoaded := false } none)).2.1.length = 1
    ∧ (lookupDone SizeTag.Normal (some 0)
        (loadMany SizeTag.Normal [1, 2]
          (LoaderState.Lookup
            { id := 7, hasSticker := true, baseCacheKey := some (1, 2),
              mediaLoaded := false } none)).1).2.2 = [2]
    ∧ ¬ ((1 : Nat) ∈ (lookupDone SizeTag.Normal (some 0)
        (loadMany SizeTag.Normal [1, 2]
          (LoaderState.Lookup
            { id := 7, hasSticker := true, baseCacheKey := some (1, 2),
              mediaLoaded := false } none)).1).2.2) :=
  ⟨by decide, by decide, by decide⟩

/-- C8: resolved succeeds exactly in the Resolving state; with no load
requested while resolving it transitions to the CacheLookup state with
nothing in flight, and with a requested load it re-issues exactly that
load against the fresh CacheLookup state. -/
theorem c8_resolved_reissues_load (tag : SizeTag) (doc : Document)
    (e : QStr) (req : Option Nat) (cb : Nat) :
    (∀ s : LoaderState, (resolvedStep tag doc s).isSome = resolving s)
    ∧ resolvedStep tag doc (LoaderState.Resolve none e)
        = some (LoaderState.Lookup doc none, [], [])
    ∧ (req = some cb →
        resolvedStep tag doc (LoaderState.Resolve req e)
          = some (loadStep tag (some cb) (LoaderState.Lookup doc none))) := by
  refine ⟨?_, rfl, ?_⟩
  · intro s
    cases s <;> rfl
  · intro h
    rw [h]
    rfl

/-- Witness for C8: a loader resolving with callback 9 requested ends up
re-issuing the load of callback 9 against the CacheLookup state. -/
theorem c8_resolved_reissues_load_witness :
    resolvedStep SizeTag.Normal
      { id := 7, hasSticker := true, baseCacheKey := some (1, 2),
        mediaLoaded := false } (LoaderState.Resolve (some 9) [])
      = some (loadStep SizeTag.Normal (some 9)
          (LoaderState.Lookup
            { id := 7, hasSticker := true, baseCacheKey := some (1, 2),
              mediaLoaded := false } none)) :=
  (c8_resolved_reissues_load SizeTag.Normal
    { id := 7, hasSticker := true, baseCacheKey := some (1, 2),
      mediaLoaded := false } [] (some 9) 9).2.2 rfl

/-- C9: cancel discards an in-flight process, signalling the document
fetch to abort only in the Load state; with nothing in flight it leaves
the state unchanged with no abort signal, so a second cancel in a row is
always a no-op. -/
theorem c9_cancel_idempotent (doc : Document) (p : Process)
    (s s2 : LoaderState) (h : hasProcess s = false) :
    cancel (LoaderState.Lookup doc (some p))
        = (LoaderState.Lookup doc none, false)
    ∧ cancel (LoaderState.Load doc (some p))
        = (LoaderState.Load doc none, true)
    ∧ cancel s = (s, false)
    ∧ cancel (cancel s2).1 = ((cancel s2).1, false) := by
  refine ⟨rfl, rfl, ?_, ?_⟩
  · cases s with
    | Resolve req e => rfl
    | Lookup d pr =>
      cases pr with
      | none => rfl
      | some _ => simp [hasProcess] at h
    | Load d pr =>
      cases pr with
      | none => rfl
      | some _ => simp [hasProcess] at h
  · cases s2 <;> rfl

/-- Witness for C9 at a concrete document, process, a Resolve state with
nothing in flight, and a Load state with an in-flight process cancelled
twice. -/
theorem c9_cancel_idempotent_witness :
    cancel (LoaderState.Lookup
        { id := 7, hasSticker := true, baseCacheKey := some (1, 2),
          mediaLoaded := false } (some { loaded := some 3 }))
      = (LoaderState.Lookup
          { id := 7, hasSticker := true, baseCacheKey := some (1, 2),
            mediaLoaded := false } none, false)
    ∧ cancel (LoaderState.Load
        { id := 7, hasSticker := true, baseCacheKey := some (1, 2),
          mediaLoaded := false } (some { loaded := some 3 }))
      = (LoaderState.Load
          { id := 7, hasSticker := true, baseCacheKey := some (1, 2),
            mediaLoaded := false } none, true)
    ∧ cancel (LoaderState.Resolve none []) = (LoaderState.Resolve none [], false)
    ∧ cancel (cancel (LoaderState.Load
        { id := 7, hasSticker := true, baseCacheKey := some (1, 2),
          mediaLoaded := false } (some { loaded := some 3 }))).1
      = ((cancel (LoaderState.Load
          { id := 7, hasSticker := true, baseCacheKey := some (1, 2),
            mediaLoaded := false } (some { loaded := some 3 }))).1, false) :=
  c9_cancel_idempotent
    { id := 7, hasSticker := true, baseCacheKey := some (1, 2),
      mediaLoaded := false } { loaded := some 3 }
    (LoaderState.Resolve none [])
    (LoaderState.Load
      { id := 7, hasSticker := true, baseCacheKey := some (1, 2),
        mediaLoaded := false } (some { loaded := some 3 }))
    (by decide)

lemma drainLoop_spec : ∀ (pending ids : List Nat),
    ids.length ≤ kMaxPerRequest →
    drainLoop ids pending =
      (ids ++ pending.take (kMaxPerRequest - ids.length),
        pending.drop (kMaxPerRequest - ids.length)) := by
  intro pending
  induction pending with
  | nil => intro ids _; simp [drainLoop]
  | cons x rest ih =>
    intro ids h
    by_cases hlt : ids.length < kMaxPerRequest
    · rw [drainLoop, if_pos hlt,
        ih (ids ++ [x]) (by rw [List.length_append]; simpa using hlt)]
      have hs : kMaxPerRequest - ids.length
          = (kMaxPerRequest - (ids ++ [x]).length) + 1 := by
        rw [List.length_append, List.length_singleton]
        omega
      rw [hs, List.take_succ_cons, List.drop_succ_cons]
      simp
    · have heq : ¬ ids.length < kMaxPerRequest := hlt
      have h100 : kMaxPerRequest - ids.length = 0 := by omega
      rw [drainLoop, if_neg heq, h100]
      simp

lemma drainLoop_nil_left (pending : List Nat) :
    drainLoop [] pending
      = (pending.take kMaxPerRequest, pending.drop kMaxPerRequest) := by
  rw [drainLoop_spec pending [] (by simp [kMaxPerRequest])]
  simp

/-- C2: every batch drained by request holds at most kMaxPerRequest ids,
and it is exactly the prefix of the pending list in most-recently-added
first order (the pending set is modelled with the most recently added id
first), the drained ids leaving the older remainder pending. -/
theorem c2_batch_bounded_most_recent_first (st : ManagerState) :
    (request st).1.length ≤ kMaxPerRequest
    ∧ (request st).1 = st.pendingForRequest.take kMaxPerRequest
    ∧ (request st).2.pendingForRequest
        = st.pendingForRequest.drop kMaxPerRequest := by
  rw [request, drainLoop_nil_left]
  by_cases hnil : st.pendingForRequest.take kMaxPerRequest = []
  · have hp : st.pendingForRequest = [] := by
      rcases List.take_eq_nil_iff.mp hnil with h | h
      · exact absurd h (by simp [kMaxPerRequest])
      · exact h
    simp [hnil, hp]
  · rw [if_neg (by simpa using hnil)]
    refine ⟨?_, rfl, rfl⟩
    rw [List.length_take]
    exact min_le_left _ _

lemma runBatches_succ (fuel : Nat) (pending : List Nat) :
    runBatches (fuel + 1) pending =
      if (drainLoop [] pending).1 = [] then []
      else (drainLoop [] pending).1 :: runBatches fuel (drainLoop [] pending).2 :=
  rfl

lemma take_100_ne_nil (p : List Nat) (h : p.length ≠ 0) :
    p.take kMaxPerRequest ≠ [] := by
  intro hc
  rcases List.take_eq_nil_iff.mp hc with h1 | h1
  · exact absurd h1 (by simp [kMaxPerRequest])
  · exact h (by rw [h1]; rfl)

/-- C5: from 250 pending ids the chained requests (requestFinished
immediately re-issues request after each completion while ids remain)
drain exactly three batches of sizes 100, 100 and 50, and together the
batches carry every queued id in order. -/
theorem c5_chain_exactly_three_batches (pending : List Nat)
    (h : pending.length = 250) :
    (runBatches pending.length pending).map List.length = [100, 100, 50]
    ∧ (runBatches pending.length pending).flatten = pending := by
  have e1 : runBatches 250 pending
      = pending.take 100 :: runBatches 249 (pending.drop 100) := by
    rw [show (250 : Nat) = 249 + 1 from rfl, runBatches_succ,
      drainLoop_nil_left,
      if_neg (take_100_ne_nil pending (by omega))]
    rfl
  have hd1 : (pending.drop 100).length = 150 := by
    rw [List.length_drop, h]
  have e2 : runBatches 249 (pending.drop 100)
      = (pending.drop 100).take 100
        :: runBatches 248 ((pending.drop 100).drop 100) := by
    rw [show (249 : Nat) = 248 + 1 from rfl, runBatches_succ,
      drainLoop_nil_left,
      if_neg (take_100_ne_nil (pending.drop 100) (by omega))]
    rfl
  have hd2 : ((pending.drop 100).drop 100).length = 50 := by
    rw [List.length_drop, hd1]
  have e3 : runBatches 248 ((pending.drop 100).drop 100)
      = ((pending.drop 100).drop 100).take 100
        :: runBatches 247 (((pending.drop 100).drop 100).drop 100) := by
    rw [show (248 : Nat) = 247 + 1 from rfl, runBatches_succ,
      drainLoop_nil_left,
      if_neg (take_100_ne_nil ((pending.drop 100).drop 100) (by omega))]
    rfl
  have hd3 : ((pending.drop 100).drop 100).drop 100 = [] := by
    rw [List.drop_eq_nil_iff]
    omega
  have e4 : runBatches 247 ((((pending.drop 100).drop 100)).drop 100) = [] := by
    rw [hd3, show (247 : Nat) = 246 + 1 from rfl, runBatches_succ]
    simp [drainLoop]
  have etake : ((pending.drop 100).drop 100).take 100
      = (pending.drop 100).drop 100 :=
    List.take_of_length_le (by omega)
  rw [h, e1, e2, e3, e4, etake]
  constructor
  · simp only [List.map_cons, List.map_nil, List.length_take, hd1, hd2]
    rw [h]
    decide
  · simp only [List.flatten_cons, List.flatten_nil, List.append_nil]
    rw [List.take_append_drop, List.take_append_drop]

/-- Witness for C5 on the concrete 250 distinct pending ids 0 to 249. -/
theorem c5_chain_exactly_three_batches_witness :
    (runBatches (List.range 250).length (List.range 250)).map List.length
        = [100, 100, 50]
    ∧ (runBatches (List.range 250).length (List.range 250)).flatten
        = List.range 250 :=
  c5_chain_exactly_three_batches (List.range 250) (by simp)

lemma findInstance_mem (id : Nat) : ∀ (l : List (Nat × Nat)) (t : Nat),
    findInstance id l = some t → (id, t) ∈ l := by
  intro l
  induction l with
  | nil => intro t h; exact absurd h (by simp [findInstance])
  | cons e rest ih =>
    intro t h
    rw [findInstance] at h
    by_cases he : e.1 = id
    · rw [if_pos he] at h
      have ht : e.2 = t := Option.some_inj.mp h
      have hpair : (id, t) = e := by rw [← he, ← ht]
      rw [hpair]
      exact List.mem_cons_self e rest
    · rw [if_neg he] at h
      exact List.mem_cons_of_mem e (ih t h)

/-- Well-formedness of the registry: instance tags are pairwise distinct
and below the fresh-tag counter. -/
def ManagerWF (st : ManagerState) : Prop :=
  (st.instances.map Prod.snd).Nodup
    ∧ ∀ p ∈ st.instances, p.2 < st.nextInstanceTag

lemma create_found_spec (s : QStr) (st : ManagerState) (t : Nat)
    (h0 : (ParseCustomEmojiData s).id ≠ 0)
    (hf : findInstance (ParseCustomEmojiData s).id st.instances = some t) :
    create s st = (some t, st) := by
  rw [create]
  simp [h0, hf]

lemma create_fresh_spec (s : QStr) (st : ManagerState)
    (h0 : (ParseCustomEmojiData s).id ≠ 0)
    (hf : findInstance (ParseCustomEmojiData s).id st.instances = none) :
    (create s st).1 = some st.nextInstanceTag
    ∧ (create s st).2.instances
        = ((ParseCustomEmojiData s).id, st.nextInstanceTag) :: st.instances
    ∧ (create s st).2.nextInstanceTag = st.nextInstanceTag + 1 := by
  rw [create]
  simp only [if_neg h0, hf]
  by_cases hr : resolving (InitialState st.owner (ParseCustomEmojiData s)) = true
  · simp [hr]
  · simp [hr]

/-- C7 counterexample: the tokens five-colon-one and five-colon-two
denote different identifiers (the owner account differs), yet both
create calls return handles bound to the same Instance, because the
registry is keyed by the document id alone. -/
theorem c7_counterexample :
    ParseCustomEmojiData [53, 58, 49] ≠ ParseCustomEmojiData [53, 58, 50]
    ∧ (create [53, 58, 49] initialManager).1 = some 0
    ∧ (create [53, 58, 50] (create [53, 58, 49] initialManager).2).1
        = some 0 :=
  ⟨by decide, by decide, by decide⟩

/-- C7 amended: the registry maps each document id (not the full pair
with the owner account) to one shared Instance: on a well-formed
registry, two create calls with parseable tokens return handles bound to
the same Instance exactly when the parsed document ids coincide. -/
theorem c7_registry_keyed_by_document_id (st : ManagerState)
    (s1 s2 : QStr) (hwf : ManagerWF st)
    (h1 : (ParseCustomEmojiData s1).id ≠ 0)
    (h2 : (ParseCustomEmojiData s2).id ≠ 0) :
    ∃ t1 t2,
      (create s1 st).1 = some t1
      ∧ (create s2 (create s1 st).2).1 = some t2
      ∧ (t1 = t2 ↔ (ParseCustomEmojiData s1).id = (ParseCustomEmojiData s2).id) := by
  set d1 := (ParseCustomEmojiData s1).id with hd1
  set d2 := (ParseCustomEmojiData s2).id with hd2
  cases hf1 : findInstance d1 st.instances with
  | some t1 =>
    have hc1 : create s1 st = (some t1, st) := create_found_spec s1 st t1 h1 hf1
    rw [hc1]
    by_cases heq : d2 = d1
    · refine ⟨t1, t1, rfl, ?_, by simp [heq]⟩
      have : findInstance d2 st.instances = some t1 := by rw [heq]; exact hf1
      rw [create_found_spec s2 st t1 h2 this]
    · cases hf2 : findInstance d2 st.instances with
      | some t2 =>
        refine ⟨t1, t2, rfl, ?_, ?_⟩
        · rw [create_found_spec s2 st t2 h2 hf2]
        · constructor
          · intro ht
            exact absurd (List.inj_on_of_nodup_map hwf.1
              (findInstance_mem d2 st.instances t2 hf2)
              (findInstance_mem d1 st.instances t1 hf1)
              (by simp [ht]))
              (fun hcon => heq (congrArg Prod.fst hcon))
          · intro hd
            exact absurd hd.symm heq
      | none =>
        obtain ⟨hb1, _, _⟩ := create_fresh_spec s2 st h2 hf2
        refine ⟨t1, st.nextInstanceTag, rfl, hb1, ?_⟩
        have hlt : t1 < st.nextInstanceTag :=
          hwf.2 (d1, t1) (findInstance_mem d1 st.instances t1 hf1)
        constructor
        · intro ht; omega
        · intro hd
          exact absurd hd.symm heq
  | none =>
    obtain ⟨ha1, ha2, ha3⟩ := create_fresh_spec s1 st h1 hf1
    obtain ⟨st1, hst1⟩ : ∃ st1, (create s1 st).2 = st1 := ⟨_, rfl⟩
    rw [hst1] at ha2 ha3
    rw [ha1, hst1]
    by_cases heq : d2 = d1
    · have hkey : (ParseCustomEmojiData s1).id = d2 := by
        rw [heq]
      have : findInstance d2 st1.instances = some st.nextInstanceTag := by
        rw [ha2, findInstance, if_pos hkey]
      refine ⟨st.nextInstanceTag, st.nextInstanceTag, rfl, ?_, by simp [heq]⟩
      rw [create_found_spec s2 st1 st.nextInstanceTag h2 this]
    · have hkey : (ParseCustomEmojiData s1).id ≠ d2 := by
        rw [← hd1]
        exact fun hc => heq hc.symm
      have hstep : findInstance d2 st1.instances = findInstance d2 st.instances := by
        rw [ha2, findInstance, if_neg hkey]
      cases hf2 : findInstance d2 st.instances with
      | some t2 =>
        have : findInstance d2 st1.instances = some t2 := by rw [hstep, hf2]
        refine ⟨st.nextInstanceTag, t2, rfl, ?_, ?_⟩
        · rw [create_found_spec s2 st1 t2 h2 this]
        · have hlt : t2 < st.nextInstanceTag :=
            hwf.2 (d2, t2) (findInstance_mem d2 st.instances t2 hf2)
          constructor
          · intro ht; omega
          · intro hd
            exact absurd hd.symm heq
      | none =>
        have : findInstance d2 st1.instances = none := by rw [hstep, hf2]
        obtain ⟨hb1, _, _⟩ := create_fresh_spec s2 st1 h2 this
        refine ⟨st.nextInstanceTag, st1.nextInstanceTag, rfl, hb1, ?_⟩
        rw [ha3]
        constructor
        · intro ht; omega
        · intro hd
          exact absurd hd.symm heq

/-- Witness for C7 amended: from a fresh manager, the tokens
five-colon-one and six-colon-one have different document ids and
receive handles bound to distinct Instances. -/
theorem c7_registry_keyed_by_document_id_witness :
    ∃ t1 t2,
      (create [53, 58, 49] initialManager).1 = some t1
      ∧ (create [54, 58, 49] (create [53, 58, 49] initialManager).2).1
          = some t2
      ∧ (t1 = t2 ↔ (ParseCustomEmojiData [53, 58, 49]).id
          = (ParseCustomEmojiData [54, 58, 49]).id) :=
  c7_registry_keyed_by_document_id initialManager [53, 58, 49] [54, 58, 49]
    (by constructor <;> simp [initialManager]) (by decide) (by decide)

/-- The step function of the minWhen fold, for reasoning about it. -/
def minWhenF (next : Nat) (e : Nat × Bunch) : Nat :=
  if next = 0 ∨ next > e.2.whenT then e.2.whenT else next

lemma minWhen_eq_foldF (l : List (Nat × Bunch)) :
    minWhen l = l.foldl minWhenF 0 := rfl

lemma minWhenAux_spec : ∀ (l : List (Nat × Bunch)) (a : Nat), 0 < a →
    (∀ e ∈ l, 0 < e.2.whenT) →
    (l.foldl minWhenF a ≤ a
      ∧ (∀ e ∈ l, l.foldl minWhenF a ≤ e.2.whenT)
      ∧ (l.foldl minWhenF a = a ∨ ∃ e ∈ l, l.foldl minWhenF a = e.2.whenT)) := by
  intro l
  induction l with
  | nil =>
    intro a _ _
    exact ⟨Nat.le_refl a, by simp, Or.inl rfl⟩
  | cons e rest ih =>
    intro a ha hpos
    have hepos : 0 < e.2.whenT := hpos e (List.mem_cons_self e rest)
    have hrest : ∀ e2 ∈ rest, 0 < e2.2.whenT :=
      fun e2 h2 => hpos e2 (List.mem_cons_of_mem e h2)
    rw [List.foldl_cons]
    by_cases hgt : a > e.2.whenT
    · have hstep : minWhenF a e = e.2.whenT := by
        rw [minWhenF, if_pos (Or.inr hgt)]
      rw [hstep]
      obtain ⟨ih1, ih2, ih3⟩ := ih e.2.whenT hepos hrest
      refine ⟨le_trans ih1 (Nat.le_of_lt hgt), ?_, ?_⟩
      · intro e2 h2
        rcases List.mem_cons.mp h2 with h2 | h2
        · rw [h2]; exact ih1
        · exact ih2 e2 h2
      · rcases ih3 with h3 | ⟨e2, h2, h3⟩
        · exact Or.inr ⟨e, List.mem_cons_self e rest, h3⟩
        · exact Or.inr ⟨e2, List.mem_cons_of_mem e h2, h3⟩
    · have hstep : minWhenF a e = a := by
        rw [minWhenF, if_neg]
        push_neg
        exact ⟨by omega, by omega⟩
      rw [hstep]
      obtain ⟨ih1, ih2, ih3⟩ := ih a ha hrest
      refine ⟨ih1, ?_, ?_⟩
      · intro e2 h2
        rcases List.mem_cons.mp h2 with h2 | h2
        · rw [h2]; omega
        · exact ih2 e2 h2
      · rcases ih3 with h3 | ⟨e2, h2, h3⟩
        · exact Or.inl h3
        · exact Or.inr ⟨e2, List.mem_cons_of_mem e h2, h3⟩

lemma minWhen_spec (e0 : Nat × Bunch) (rest : List (Nat × Bunch))
    (hpos : ∀ e ∈ e0 :: rest, 0 < e.2.whenT) :
    0 < minWhen (e0 :: rest)
      ∧ (∃ e ∈ e0 :: rest, minWhen (e0 :: rest) = e.2.whenT)
      ∧ ∀ e ∈ e0 :: rest, minWhen (e0 :: rest) ≤ e.2.whenT := by
  have he0 : 0 < e0.2.whenT := hpos e0 (List.mem_cons_self e0 rest)
  have hrest : ∀ e ∈ rest, 0 < e.2.whenT :=
    fun e h => hpos e (List.mem_cons_of_mem e0 h)
  have hfirst : minWhenF 0 e0 = e0.2.whenT := by
    rw [minWhenF, if_pos (Or.inl rfl)]
  rw [minWhen_eq_foldF, List.foldl_cons, hfirst]
  obtain ⟨h1, h2, h3⟩ := minWhenAux_spec rest e0.2.whenT he0 hrest
  refine ⟨?_, ?_, ?_⟩
  · rcases h3 with h3 | ⟨e2, hm, h3⟩
    · rw [h3]; exact he0
    · rw [h3]; exact hrest e2 hm
  · rcases h3 with h3 | ⟨e2, hm, h3⟩
    · exact ⟨e0, List.mem_cons_self e0 rest, h3⟩
    · exact ⟨e2, List.mem_cons_of_mem e0 hm, h3⟩
  · intro e2 h2m
    rcases List.mem_cons.mp h2m with hm | hm
    · rw [hm]; exact h1
    · exact h2 e2 hm

lemma flatMap_sublist_of_sublist (l1 l2 : List (Nat × Bunch))
    (f : (Nat × Bunch) → List Nat) (h : List.Sublist l1 l2) :
    List.Sublist (l1.flatMap f) (l2.flatMap f) := by
  induction h with
  | slnil => exact List.Sublist.refl _
  | cons a h ih => exact ih.trans (List.sublist_append_right _ _)
  | cons₂ a h ih => exact List.Sublist.append_left ih _

lemma flatMap_filter_alive_sublist (l : List (Nat × Bunch))
    (alive : Nat → Bool) :
    List.Sublist (l.flatMap (fun e => e.2.instances.filter alive))
      (l.flatMap (fun e => e.2.instances)) := by
  induction l with
  | nil => exact List.Sublist.refl _
  | cons e rest ih => exact List.Sublist.append (List.filter_sublist _) ih

lemma invokeRepaints_eq (alive : Nat → Bool) (now : Nat) (s : RepaintState) :
    invokeRepaints alive now s
      = ({ repaints := s.repaints.filter (fun e => decide (now < e.2.whenT)),
           repaintNext :=
             minWhen (s.repaints.filter (fun e => decide (now < e.2.whenT))) },
         (s.repaints.filter (fun e => decide (e.2.whenT ≤ now))).flatMap
           (fun e => e.2.instances.filter alive)) := by
  rw [invokeRepaints, show (2 : Nat) = 1 + 1 from rfl, repaintStep]
  rw [show (1 : Nat) = 0 + 1 from rfl, repaintStep]
  cases hk : s.repaints.filter (fun e => decide (now < e.2.whenT)) with
  | nil =>
    rw [minWhen_eq_foldF]
    simp
  | cons e0 rest =>
    have hpos : ∀ e ∈ e0 :: rest, 0 < e.2.whenT := by
      intro e he
      rw [← hk] at he
      have := (List.mem_filter.mp he).2
      rw [decide_eq_true_eq] at this
      omega
    have hgtnow : ∀ e ∈ e0 :: rest, now < e.2.whenT := by
      intro e he
      rw [← hk] at he
      have := (List.mem_filter.mp he).2
      rw [decide_eq_true_eq] at this
      exact this
    obtain ⟨hmin1, ⟨em, hem, hmeq⟩, _⟩ := minWhen_spec e0 rest hpos
    have hne : minWhen (e0 :: rest) ≠ 0 := by omega
    have hnow : ¬ now ≥ minWhen (e0 :: rest) := by
      rw [hmeq]
      exact Nat.not_le.mpr (hgtnow em hem)
    simp only [if_pos (And.intro hne (Or.inl rfl)), if_neg hnow]
    simp [if_neg hne]

/-- C6 counterexample: the claimed invariant that the scheduled wake
timer always equals the minimum due timestamp over non-empty bunches
fails across repaintLater.  From the reachable state with one bunch due
at 100 and the timer programmed for 100, a repaintLater request at time
50 extends that bunch's due time to 150, but the scheduling guard only
ever lowers a programmed timer, so the timer stays at 100 while the
minimum due timestamp is 150. -/
theorem c6_counterexample :
    (repaintLater (fun _ => true) 50 22 1000 150
        { repaints := [(1000, { whenT := 100, instances := [11] })],
          repaintNext := 100 }).1.repaintNext = 100
    ∧ minWhen (repaintLater (fun _ => true) 50 22 1000 150
        { repaints := [(1000, { whenT := 100, instances := [11] })],
          repaintNext := 100 }).1.repaints = 150
    ∧ (100 : Nat) ≠ 150 :=
  ⟨by decide, by decide, by decide⟩

/-- C6 amended: the equality of the scheduled wake timer with the
minimum due timestamp over non-empty bunches is re-established whenever
the timer fires, rather than maintained across every operation (a
repaintLater that extends the minimal bunch's due time leaves an
earlier-programmed timer in place until it fires).  Invoking the repaint
timer removes exactly the bunches whose due time has elapsed, notifies
exactly the still-alive targets of those bunches (each exactly once when
each target was registered once), and reprograms the timer to the
minimum due timestamp over the remaining bunches (zero when none
remain); in particular with bunches due at 100 and 150, firing at 100
flushes only the first bunch and reprograms the timer for 150. -/
theorem c6_repaint_flush_and_reschedule (alive : Nat → Bool) (now : Nat)
    (s : RepaintState)
    (hdup : (s.repaints.flatMap (fun e => e.2.instances)).Nodup) :
    (invokeRepaints alive now s).1.repaints
        = s.repaints.filter (fun e => decide (now < e.2.whenT))
    ∧ (invokeRepaints alive now s).1.repaintNext
        = minWhen ((invokeRepaints alive now s).1.repaints)
    ∧ (∀ x, x ∈ (invokeRepaints alive now s).2
        ↔ (alive x = true
            ∧ ∃ e ∈ s.repaints, e.2.whenT ≤ now ∧ x ∈ e.2.instances))
    ∧ (invokeRepaints alive now s).2.Nodup := by
  rw [invokeRepaints_eq]
  refine ⟨rfl, rfl, ?_, ?_⟩
  · intro x
    simp only [List.mem_flatMap, List.mem_filter, decide_eq_true_eq]
    constructor
    · rintro ⟨e, ⟨he, hwhen⟩, hx, halive⟩
      exact ⟨halive, e, he, hwhen, hx⟩
    · rintro ⟨halive, e, he, hwhen, hx⟩
      exact ⟨e, ⟨he, hwhen⟩, hx, halive⟩
  · exact List.Nodup.sublist
      ((flatMap_filter_alive_sublist _ alive).trans
        (flatMap_sublist_of_sublist _ _ _ (List.filter_sublist s.repaints)))
      hdup

/-- Witness for C6 on the spec scenario: bunches due at 100 and 150,
fired at time 100 with all targets alive, flush only the first bunch,
notify its target once, and reprogram the timer for 150. -/
theorem c6_repaint_flush_and_reschedule_witness :
    (invokeRepaints (fun _ => true) 100
        { repaints := [(1000, { whenT := 100, instances := [11] }),
            (2000, { whenT := 150, instances := [22] })],
          repaintNext := 100 }).1.repaints
      = [(2000, { whenT := 150, instances := [22] })]
    ∧ (invokeRepaints (fun _ => true) 100
        { repaints := [(1000, { whenT := 100, instances := [11] }),
            (2000, { whenT := 150, instances := [22] })],
          repaintNext := 100 }).1.repaintNext = 150
    ∧ (invokeRepaints (fun _ => true) 100
        { repaints := [(1000, { whenT := 100, instances := [11] }),
            (2000, { whenT := 150, instances := [22] })],
          repaintNext := 100 }).2 = [11] := by
  have h := c6_repaint_flush_and_reschedule (fun _ => true) 100
    { repaints := [(1000, { whenT := 100, instances := [11] }),
        (2000, { whenT := 150, instances := [22] })],
      repaintNext := 100 } (by decide)
  refine ⟨?_, ?_, by decide⟩
  · rw [h.1]
    decide
  · rw [h.2.1, h.1]
    decide

end Data
